import Mathlib

/-!
Formal model of the acquisition core of the ICM20948 IMU driver
(`src/drivers/imu/invensense/icm20948/ICM20948.cpp`), shallowly embedded.

Conventions of the embedding:
* bytes are `Fin 256`; signed 16-bit values are `ℤ` produced by `combine`,
  which reinterprets a big-endian byte pair exactly as the C cast to
  `int16_t` does;
* the companion header `ICM20948.hpp` is not part of the sources, so the
  hardware constants it declares (`SAMPLES_PER_TRANSFER`, `GYRO_RATE`,
  `FIFO_MAX_SAMPLES`, `FIFO::SIZE`, `WHOAMI`, the layout of `FIFO::DATA`)
  are modelled from the spec: the frame layout is the spec's wire format
  (six big-endian signed 16-bit fields, accel X,Y,Z then gyro X,Y,Z), and
  the numeric constants are kept as explicit parameters;
* the float arithmetic of `ConfigureSampleRate` is modelled exactly over
  `ℚ`, with `roundf` on non-negative arguments modelled as
  round-half-away-from-zero, following the spec's exact-arithmetic
  description of the algorithm;
* perf counters, timestamps and delta-time metadata are modelled only
  where a claim mentions them (as flags recording that an event was
  counted); bus transfers are modelled by their received buffers.
-/

namespace ICM20948

/-- Bytes on the wire and in registers. -/
abbrev Byte := Fin 256

/-- Mirrors `combine(msb, lsb)`: `(msb << 8u) | lsb` truncated to `int16_t`,
i.e. the big-endian byte pair reinterpreted as a signed 16-bit integer. -/
def combine (msb lsb : Byte) : ℤ :=
  if msb.val * 256 + lsb.val < 32768 then ((msb.val * 256 + lsb.val : ℕ) : ℤ)
  else ((msb.val * 256 + lsb.val : ℕ) : ℤ) - 65536

/-- Modelled from the spec: one FIFO frame (`FIFO::DATA`, declared in the
missing header); the wire format is six big-endian signed 16-bit fields,
accel X,Y,Z then gyro X,Y,Z, 12 bytes in total. -/
structure DATA where
  ACCEL_XOUT_H : Byte
  ACCEL_XOUT_L : Byte
  ACCEL_YOUT_H : Byte
  ACCEL_YOUT_L : Byte
  ACCEL_ZOUT_H : Byte
  ACCEL_ZOUT_L : Byte
  GYRO_XOUT_H : Byte
  GYRO_XOUT_L : Byte
  GYRO_YOUT_H : Byte
  GYRO_YOUT_L : Byte
  GYRO_ZOUT_H : Byte
  GYRO_ZOUT_L : Byte
deriving DecidableEq

/-- Mirrors `fifo_accel_equal(f0, f1)`: `memcmp` of the 6 bytes starting at
`ACCEL_XOUT_H`, i.e. byte-identity of the accel fields of two frames. -/
def fifo_accel_equal (f0 f1 : DATA) : Bool :=
  (f0.ACCEL_XOUT_H == f1.ACCEL_XOUT_H) && (f0.ACCEL_XOUT_L == f1.ACCEL_XOUT_L) &&
  (f0.ACCEL_YOUT_H == f1.ACCEL_YOUT_H) && (f0.ACCEL_YOUT_L == f1.ACCEL_YOUT_L) &&
  (f0.ACCEL_ZOUT_H == f1.ACCEL_ZOUT_H) && (f0.ACCEL_ZOUT_L == f1.ACCEL_ZOUT_L)

/-- Mirrors the per-axis conversion `(v == INT16_MIN) ? INT16_MAX : -v`
applied to the Y and Z axes in `ProcessAccel` and `ProcessGyro`. -/
def flipSign (v : ℤ) : ℤ :=
  if v = -32768 then 32767 else -v

/-- Raw big-endian decode of the three accel fields of a frame. -/
def rawAccel (d : DATA) : ℤ × ℤ × ℤ :=
  (combine d.ACCEL_XOUT_H d.ACCEL_XOUT_L,
   combine d.ACCEL_YOUT_H d.ACCEL_YOUT_L,
   combine d.ACCEL_ZOUT_H d.ACCEL_ZOUT_L)

/-- Raw big-endian decode of the three gyro fields of a frame. -/
def rawGyro (d : DATA) : ℤ × ℤ × ℤ :=
  (combine d.GYRO_XOUT_H d.GYRO_XOUT_L,
   combine d.GYRO_YOUT_H d.GYRO_YOUT_L,
   combine d.GYRO_ZOUT_H d.GYRO_ZOUT_L)

/-- Published accel triple for one frame, as built inside the `ProcessAccel`
loop: X unchanged, Y and Z flipped. -/
def accelTriple (d : DATA) : ℤ × ℤ × ℤ :=
  ((rawAccel d).1, flipSign (rawAccel d).2.1, flipSign (rawAccel d).2.2)

/-- Published gyro triple for one frame, as built inside the `ProcessGyro`
loop: X unchanged, Y and Z flipped. -/
def gyroTriple (d : DATA) : ℤ × ℤ × ℤ :=
  ((rawGyro d).1, flipSign (rawGyro d).2.1, flipSign (rawGyro d).2.2)

/-- Mirrors `ICM20948::ProcessGyro`: one output sample per frame, in order.
The buffer's frame array is modelled as a function from index to frame;
timestamp and delta-time metadata are not modelled (no claim uses them). -/
def ProcessGyro (samples : ℕ) (f : ℕ → DATA) : List (ℤ × ℤ × ℤ) :=
  (List.range samples).map fun i => gyroTriple (f i)

/-- Mirrors the alignment detection at the top of `ICM20948::ProcessAccel`:
`accel_first_sample` starts at 1; with at least 4 samples, frames 0,1 and
2,3 byte-identical keeps offset 1; else frames 1,2 identical selects
offset 0; else the data is flagged bad (offset stays 1). Returns
`(accel_first_sample, bad_data)`. -/
def accelFirstSample (samples : ℕ) (f : ℕ → DATA) : ℕ × Bool :=
  if 4 ≤ samples then
    if fifo_accel_equal (f 0) (f 1) && fifo_accel_equal (f 2) (f 3) then (1, false)
    else if fifo_accel_equal (f 1) (f 2) then (0, false)
    else (1, true)
  else (1, false)

/-- Indices visited by the loop `for (i = first; i < samples; i += 2)`. -/
def strideTwoIdx (first samples : ℕ) : List ℕ :=
  (List.range ((samples - first + 1) / 2)).map fun j => first + 2 * j

/-- Accel samples decoded starting at a given offset, stepping by two:
the extraction loop of `ProcessAccel` run with `accel_first_sample = first`. -/
def accelDecodeAt (first samples : ℕ) (f : ℕ → DATA) : List (ℤ × ℤ × ℤ) :=
  (strideTwoIdx first samples).map fun i => accelTriple (f i)

/-- Mirrors `ICM20948::ProcessAccel`: detect the duplication offset, decode
every second frame starting there, publish the batch, and return
`!bad_data`. The published batch is the first component (it is published
even when the alignment was ambiguous). -/
def ProcessAccel (samples : ℕ) (f : ℕ → DATA) : List (ℤ × ℤ × ℤ) × Bool :=
  (accelDecodeAt (accelFirstSample samples f).1 samples f,
   !(accelFirstSample samples f).2)

/-- Constant frame with every byte equal to `b`; a test fixture. -/
def mkFrame (b : Byte) : DATA :=
  ⟨b, b, b, b, b, b, b, b, b, b, b, b⟩

/-- Buffer whose frames pair up as frame0 = frame1, frame2 = frame3 while
consecutive pairs differ: the offset-1 duplication pattern. -/
def bufPaired : ℕ → DATA := fun i => mkFrame ⟨i / 2 % 256, Nat.mod_lt _ (by omega)⟩

/-- Helper: element `i` of a map over `List.range`. -/
theorem getD_map_range {α : Type} (n i : ℕ) (h : i < n) (g : ℕ → α) (d : α) :
    (((List.range n).map g).getD i d) = g i := by
  simp [List.getD_eq_getElem?_getD, List.getElem?_map, List.getElem?_range, h]

/-- C1: for a decoded buffer of at least 4 frames, `ProcessAccel` keeps the
default offset 1 when frames 0,1 and frames 2,3 have byte-identical accel
fields; otherwise it selects offset 0 when frames 1,2 are byte-identical;
otherwise it reports failure while still publishing the batch decoded at
the default offset 1. For buffers of 2-3 frames no pattern check is
performed and offset 1 is used. -/
theorem processAccel_offset_selection (samples : ℕ) (f : ℕ → DATA)
    (h2 : 2 ≤ samples) :
    (4 ≤ samples →
      ((fifo_accel_equal (f 0) (f 1) = true ∧ fifo_accel_equal (f 2) (f 3) = true) →
          ProcessAccel samples f = (accelDecodeAt 1 samples f, true)) ∧
        (¬(fifo_accel_equal (f 0) (f 1) = true ∧ fifo_accel_equal (f 2) (f 3) = true) →
          fifo_accel_equal (f 1) (f 2) = true →
          ProcessAccel samples f = (accelDecodeAt 0 samples f, true)) ∧
        (¬(fifo_accel_equal (f 0) (f 1) = true ∧ fifo_accel_equal (f 2) (f 3) = true) →
          fifo_accel_equal (f 1) (f 2) = false →
          ProcessAccel samples f = (accelDecodeAt 1 samples f, false))) ∧
    (samples < 4 → ProcessAccel samples f = (accelDecodeAt 1 samples f, true)) := by
  constructor
  · intro h4
    refine ⟨fun hA => ?_, fun hA hB => ?_, fun hA hB => ?_⟩
    · simp [ProcessAccel, accelFirstSample, h4, hA.1, hA.2]
    · have hcond : (fifo_accel_equal (f 0) (f 1) && fifo_accel_equal (f 2) (f 3)) = false := by
        cases h01 : fifo_accel_equal (f 0) (f 1) <;>
          cases h23 : fifo_accel_equal (f 2) (f 3) <;> simp_all
      simp [ProcessAccel, accelFirstSample, h4, hcond, hB]
    · have hcond : (fifo_accel_equal (f 0) (f 1) && fifo_accel_equal (f 2) (f 3)) = false := by
        cases h01 : fifo_accel_equal (f 0) (f 1) <;>
          cases h23 : fifo_accel_equal (f 2) (f 3) <;> simp_all
      simp [ProcessAccel, accelFirstSample, h4, hcond, hB]
  · intro hlt
    simp [ProcessAccel, accelFirstSample, show ¬ 4 ≤ samples by omega]

/-- Witness for C1: a concrete 4-frame buffer in the offset-1 pattern. -/
theorem processAccel_offset_selection_witness :
    2 ≤ 4 ∧ ProcessAccel 4 bufPaired = (accelDecodeAt 1 4 bufPaired, true) :=
  ⟨by decide,
   ((processAccel_offset_selection 4 bufPaired (by decide)).1 (by decide)).1
     ⟨by decide, by decide⟩⟩

/-- Specification predicate, stated from the claim's words, for the axis
convention to compare against the decode functions: X passes through
unchanged; Y and Z map a raw value v to -v, except INT16_MIN which maps to
INT16_MAX instead of wrapping. -/
def SignConvSpec (raw out : ℤ × ℤ × ℤ) : Prop :=
  out.1 = raw.1 ∧
  (raw.2.1 = -32768 → out.2.1 = 32767) ∧ (raw.2.1 ≠ -32768 → out.2.1 = -raw.2.1) ∧
  (raw.2.2 = -32768 → out.2.2 = 32767) ∧ (raw.2.2 ≠ -32768 → out.2.2 = -raw.2.2)

theorem signConvSpec_triple (x y z : ℤ) :
    SignConvSpec (x, y, z) (x, flipSign y, flipSign z) := by
  refine ⟨rfl, ?_, ?_, ?_, ?_⟩ <;> intro h <;> simp at h <;> simp [flipSign, h]

theorem signConvSpec_gyroTriple (d : DATA) : SignConvSpec (rawGyro d) (gyroTriple d) := by
  rcases hr : rawGyro d with ⟨x, y, z⟩
  simpa [gyroTriple, hr] using signConvSpec_triple x y z

theorem signConvSpec_accelTriple (d : DATA) : SignConvSpec (rawAccel d) (accelTriple d) := by
  rcases hr : rawAccel d with ⟨x, y, z⟩
  simpa [accelTriple, hr] using signConvSpec_triple x y z

theorem accelFirstSample_le_one (samples : ℕ) (f : ℕ → DATA) :
    (accelFirstSample samples f).1 ≤ 1 := by
  unfold accelFirstSample
  split_ifs <;> norm_num

/-- C2: every sample decoded by `ProcessGyro` and `ProcessAccel` satisfies
the sign convention: X passes through unchanged, Y and Z are negated, and
the raw value INT16_MIN on Y or Z is mapped to INT16_MAX instead of
wrapping. -/
theorem process_sign_conversion :
    (∀ (samples : ℕ) (f : ℕ → DATA) (i : ℕ), i < samples →
        SignConvSpec (rawGyro (f i)) ((ProcessGyro samples f).getD i (0, 0, 0))) ∧
    (∀ (samples : ℕ) (f : ℕ → DATA) (j : ℕ),
        j < ((ProcessAccel samples f).1).length →
        ∃ i, i < samples ∧
          SignConvSpec (rawAccel (f i)) (((ProcessAccel samples f).1).getD j (0, 0, 0))) := by
  constructor
  · intro samples f i h
    have hg : (ProcessGyro samples f).getD i (0, 0, 0) = gyroTriple (f i) := by
      simpa [ProcessGyro] using getD_map_range samples i h (fun k => gyroTriple (f k)) (0, 0, 0)
    rw [hg]
    exact signConvSpec_gyroTriple (f i)
  · intro samples f j hj
    have hfirst : (accelFirstSample samples f).1 ≤ 1 := accelFirstSample_le_one samples f
    have hmap : (ProcessAccel samples f).1 =
        (List.range ((samples - (accelFirstSample samples f).1 + 1) / 2)).map
          (fun k => accelTriple (f ((accelFirstSample samples f).1 + 2 * k))) := by
      simp [ProcessAccel, accelDecodeAt, strideTwoIdx, List.map_map, Function.comp]
    have hj' : j < (samples - (accelFirstSample samples f).1 + 1) / 2 := by
      rw [hmap] at hj
      simpa using hj
    refine ⟨(accelFirstSample samples f).1 + 2 * j, by omega, ?_⟩
    rw [hmap, getD_map_range _ j hj']
    exact signConvSpec_accelTriple _

/-- Frame whose raw gyro Y field is exactly INT16_MIN. -/
def minYFrame : DATA :=
  ⟨0, 0, 0, 0, 0, 0, 0, 0, ⟨128, by omega⟩, 0, 0, 0⟩

/-- Witness for C2: decoding a frame with gyro Y = INT16_MIN yields
INT16_MAX on the published Y axis. -/
theorem process_sign_conversion_witness :
    (0 : ℕ) < 1 ∧ ((ProcessGyro 1 (fun _ => minYFrame)).getD 0 (0, 0, 0)).2.1 = 32767 := by
  refine ⟨by decide, ?_⟩
  exact (process_sign_conversion.1 1 (fun _ => minYFrame) 0 (by decide)).2.1 (by decide)

/-- Received buffer of one FIFO transfer (`FIFOTransferBuffer` without the
leading command byte): the two FIFO count bytes followed by the frame
array, modelled as a total index function. -/
structure FIFOTransferBuffer where
  FIFO_COUNTH : Byte
  FIFO_COUNTL : Byte
  f : ℕ → DATA

/-- FIFO byte count of a transfer: `combine(FIFO_COUNTH, FIFO_COUNTL)`
assigned back to a `uint16_t`, which is plain big-endian reassembly. -/
def fifoCountBytes (buf : FIFOTransferBuffer) : ℕ :=
  buf.FIFO_COUNTH.val * 256 + buf.FIFO_COUNTL.val

/-- Sample count of a transfer: the byte count divided by the 12-byte frame
size (`sizeof(FIFO::DATA)`, from the spec's wire format). -/
def fifoCountSamples (buf : FIFOTransferBuffer) : ℕ :=
  fifoCountBytes buf / 12

/-- Outcome of one `ICM20948::FIFORead` call: the return value, the final
value of `_force_fifo_count_check`, the published batches (if any), and
whether the empty / overflow perf counters and `FIFOReset` were hit. -/
structure FIFOReadResult where
  ok : Bool
  force_fifo_count_check : Bool
  gyro : Option (List (ℤ × ℤ × ℤ))
  accel : Option (List (ℤ × ℤ × ℤ))
  emptyCounted : Bool
  overflowCounted : Bool
  resetCalled : Bool

/-- Mirrors `ICM20948::FIFORead` after a successful bus transfer.
`FIFO_SIZE` is the hardware FIFO capacity in bytes (`FIFO::SIZE`, declared
in the missing header, kept as a parameter); `forceIn` is the incoming
value of `_force_fifo_count_check`; `samples` is the expected count. -/
def FIFORead (FIFO_SIZE : ℕ) (forceIn : Bool) (samples : ℕ)
    (buf : FIFOTransferBuffer) : FIFOReadResult :=
  if fifoCountSamples buf = 0 then
    ⟨false, forceIn, none, none, true, false, false⟩
  else if FIFO_SIZE ≤ fifoCountBytes buf then
    ⟨false, forceIn, none, none, false, true, true⟩
  else
    let valid := min samples (fifoCountSamples buf)
    let force1 :=
      if fifoCountSamples buf < samples then true
      else if samples + 2 ≤ fifoCountSamples buf then true
      else false
    if 0 < valid then
      if (ProcessAccel valid buf.f).2 then
        ⟨true, force1, some (ProcessGyro valid buf.f), some (ProcessAccel valid buf.f).1,
         false, false, false⟩
      else
        ⟨false, true, some (ProcessGyro valid buf.f), some (ProcessAccel valid buf.f).1,
         false, false, false⟩
    else
      ⟨false, true, none, none, false, false, false⟩

theorem processGyro_length (n : ℕ) (f : ℕ → DATA) : (ProcessGyro n f).length = n := by
  simp [ProcessGyro]

/-- Buffer reporting 48 FIFO bytes (4 frames) whose accel fields are
pairwise distinct: neither duplication pattern holds. -/
def cbufBad : FIFOTransferBuffer :=
  ⟨0, ⟨48, by omega⟩, fun i => mkFrame ⟨i % 256, Nat.mod_lt _ (by omega)⟩⟩

/-- Counterexample for C3 as stated: a successful transfer with actual
sample count equal to the expected count (so neither `actual < expected`
nor `actual ≥ expected + 2` holds), yet the force-fifo-count-check flag is
set at the end of the call, because the accel alignment check failed. -/
theorem fifoRead_force_flag_counterexample :
    fifoCountSamples cbufBad = 4 ∧ fifoCountBytes cbufBad < 512 ∧
    ¬(fifoCountSamples cbufBad < 4 ∨ 4 + 2 ≤ fifoCountSamples cbufBad) ∧
    (FIFORead 512 false 4 cbufBad).force_fifo_count_check = true := by
  decide

/-- C3 (amended): when the transfer succeeds with a nonzero actual sample
count below capacity, the decoded sample count is `min(expected, actual)`;
the force-fifo-count-check flag ends the call set exactly when
`actual < expected`, or `actual ≥ expected + 2`, or the decode itself
failed (no valid samples, or the accel alignment check flagged bad data);
it is cleared otherwise. -/
theorem fifoRead_valid_samples_and_force (FIFO_SIZE : ℕ) (forceIn : Bool)
    (samples : ℕ) (buf : FIFOTransferBuffer)
    (hne : fifoCountSamples buf ≠ 0)
    (hlt : fifoCountBytes buf < FIFO_SIZE) :
    (0 < min samples (fifoCountSamples buf) →
      (FIFORead FIFO_SIZE forceIn samples buf).gyro
          = some (ProcessGyro (min samples (fifoCountSamples buf)) buf.f) ∧
        (ProcessGyro (min samples (fifoCountSamples buf)) buf.f).length
          = min samples (fifoCountSamples buf) ∧
        (FIFORead FIFO_SIZE forceIn samples buf).accel
          = some (ProcessAccel (min samples (fifoCountSamples buf)) buf.f).1) ∧
    ((FIFORead FIFO_SIZE forceIn samples buf).force_fifo_count_check = true ↔
      (fifoCountSamples buf < samples ∨ samples + 2 ≤ fifoCountSamples buf ∨
        min samples (fifoCountSamples buf) = 0 ∨
        (ProcessAccel (min samples (fifoCountSamples buf)) buf.f).2 = false)) := by
  have h2 : ¬ FIFO_SIZE ≤ fifoCountBytes buf := not_le.mpr hlt
  simp only [FIFORead, if_neg hne, if_neg h2]
  by_cases hv : 0 < min samples (fifoCountSamples buf)
  · by_cases hacc : (ProcessAccel (min samples (fifoCountSamples buf)) buf.f).2 = true
    · simp only [if_pos hv, if_pos hacc]
      refine ⟨fun _ => by simp [processGyro_length], ?_⟩
      by_cases hc1 : fifoCountSamples buf < samples
      · simp [hc1]
      · by_cases hc2 : samples + 2 ≤ fifoCountSamples buf
        · simp [hc1, hc2]
        · simp [hc1, hc2, hacc]
          omega
    · simp only [if_pos hv, if_neg hacc]
      refine ⟨fun _ => by simp [processGyro_length], ?_⟩
      simp only [Bool.not_eq_true] at hacc
      simp [hacc]
  · simp only [if_neg hv]
    refine ⟨fun h => absurd h hv, ?_⟩
    simp
    omega


/-- Buffer reporting 24 FIFO bytes (2 frames), all frames identical. -/
def cbufGood : FIFOTransferBuffer :=
  ⟨0, ⟨24, by omega⟩, fun _ => mkFrame 0⟩

/-- Witness for C3 (amended): an in-sync transfer publishes
`min(expected, actual)` gyro samples and clears the flag. -/
theorem fifoRead_valid_samples_and_force_witness :
    (FIFORead 512 false 2 cbufGood).gyro = some (ProcessGyro 2 cbufGood.f) ∧
    (FIFORead 512 false 2 cbufGood).force_fifo_count_check = false := by
  have h := fifoRead_valid_samples_and_force 512 false 2 cbufGood (by decide) (by decide)
  have hmin : min 2 (fifoCountSamples cbufGood) = 2 := by decide
  constructor
  · have hg := (h.1 (by decide)).1
    rw [hmin] at hg
    exact hg
  · have hr : ¬(fifoCountSamples cbufGood < 2 ∨ 2 + 2 ≤ fifoCountSamples cbufGood ∨
        min 2 (fifoCountSamples cbufGood) = 0 ∨
        (ProcessAccel (min 2 (fifoCountSamples cbufGood)) cbufGood.f).2 = false) := by
      decide
    cases hforce : (FIFORead 512 false 2 cbufGood).force_fifo_count_check
    · rfl
    · exact absurd (h.2.mp hforce) hr

/-- C6: a successful transfer whose leading byte count is at or above the
hardware FIFO capacity takes the overflow path: the overflow counter is
incremented, `FIFOReset` is invoked, and the call fails publishing
nothing; a byte count converting to zero samples instead counts an
empty-FIFO event and fails without a FIFO reset. -/
theorem fifoRead_overflow_and_empty (FIFO_SIZE : ℕ) (forceIn : Bool)
    (samples : ℕ) (buf : FIFOTransferBuffer) (hsz : 12 ≤ FIFO_SIZE) :
    (FIFO_SIZE ≤ fifoCountBytes buf →
      FIFORead FIFO_SIZE forceIn samples buf
        = ⟨false, forceIn, none, none, false, true, true⟩) ∧
    (fifoCountSamples buf = 0 →
      FIFORead FIFO_SIZE forceIn samples buf
        = ⟨false, forceIn, none, none, true, false, false⟩) := by
  constructor
  · intro hof
    have hcnt : fifoCountSamples buf ≠ 0 := by
      have h12 : 12 ≤ fifoCountBytes buf := le_trans hsz hof
      unfold fifoCountSamples
      omega
    simp [FIFORead, hcnt, hof]
  · intro hz
    simp [FIFORead, hz]

/-- Buffer whose leading count reads exactly 512 bytes. -/
def cbufFull : FIFOTransferBuffer :=
  ⟨⟨2, by omega⟩, 0, fun _ => mkFrame 0⟩

/-- Buffer whose leading count reads zero bytes. -/
def cbufEmpty : FIFOTransferBuffer :=
  ⟨0, 0, fun _ => mkFrame 0⟩

/-- Witness for C6: a byte count of exactly the 512-byte capacity takes the
overflow-reset path, and a zero byte count takes the empty path. -/
theorem fifoRead_overflow_and_empty_witness :
    FIFORead 512 false 4 cbufFull = ⟨false, false, none, none, false, true, true⟩ ∧
    FIFORead 512 false 4 cbufEmpty = ⟨false, false, none, none, true, false, false⟩ :=
  ⟨(fifoRead_overflow_and_empty 512 false 4 cbufFull (by decide)).1 (by decide),
   (fifoRead_overflow_and_empty 512 false 4 cbufEmpty (by decide)).2 (by decide)⟩

/-- Round-half-away-from-zero, the behaviour of `roundf` on the
non-negative arguments arising in `ConfigureSampleRate`. -/
def roundQ (q : ℚ) : ℤ := ⌊q + 1 / 2⌋

/-- Modelled from the spec: the hardware timing constants declared in the
missing header. `spt` is `SAMPLES_PER_TRANSFER`, `gyroRate` the gyro's
native rate in Hz (the accel natively samples at half that rate), and
`maxSamples` is `FIFO_MAX_SAMPLES`, the maximum batch capacity. -/
structure RateParams where
  spt : ℕ
  gyroRate : ℚ
  maxSamples : ℕ

/-- Base FIFO sample period in microseconds: `FIFO_SAMPLE_DT = 1e6 / GYRO_RATE`. -/
def fifoSampleDT (p : RateParams) : ℚ := 1000000 / p.gyroRate

/-- Minimum schedulable interval: `SAMPLES_PER_TRANSFER * FIFO_SAMPLE_DT`. -/
def minInterval (p : RateParams) : ℚ := p.spt * fifoSampleDT p

/-- Mirrors the first assignment to `_fifo_empty_interval_us` in
`ICM20948::ConfigureSampleRate`:
`max(roundf((1e6/rate)/min_interval)*min_interval, min_interval)`. -/
def fifoEmptyIntervalInit (p : RateParams) (rate : ℕ) : ℚ :=
  max ((roundQ ((1000000 / (rate : ℚ)) / minInterval p) : ℚ) * minInterval p)
    (minInterval p)

/-- Mirrors `ICM20948::ConfigureSampleRate` over exact rationals: returns
the final `_fifo_empty_interval_us` together with `_fifo_gyro_samples` and
`_fifo_accel_samples`. A zero requested rate defaults to 800 Hz; the
accel native rate is `GYRO_RATE / 2`. -/
def ConfigureSampleRate (p : RateParams) (sample_rate : ℕ) : ℚ × ℤ × ℤ :=
  let rate := if sample_rate = 0 then 800 else sample_rate
  let i1 := fifoEmptyIntervalInit p rate
  let g := roundQ (min (i1 / fifoSampleDT p) (p.maxSamples : ℚ))
  let i2 := (g : ℚ) * fifoSampleDT p
  let a := roundQ (min (i2 / (1000000 / (p.gyroRate / 2))) (p.maxSamples : ℚ))
  (i2, g, a)

theorem roundQ_intCast (n : ℤ) : roundQ (n : ℚ) = n := by
  unfold roundQ
  rw [Int.floor_int_add]
  norm_num

theorem roundQ_mono {a b : ℚ} (h : a ≤ b) : roundQ a ≤ roundQ b :=
  Int.floor_mono (by linarith)

theorem minInterval_pos (p : RateParams) (hR : 0 < p.gyroRate) (hspt : 1 ≤ p.spt) :
    0 < minInterval p := by
  have hdt : 0 < fifoSampleDT p := div_pos (by norm_num) hR
  have hs : (0 : ℚ) < p.spt := by exact_mod_cast hspt
  exact mul_pos hs hdt

theorem fifoEmptyIntervalInit_eq (p : RateParams) (rate : ℕ)
    (hmin : 0 < minInterval p) :
    fifoEmptyIntervalInit p rate
      = ((max (roundQ ((1000000 / (rate : ℚ)) / minInterval p)) 1 : ℤ) : ℚ)
          * minInterval p := by
  unfold fifoEmptyIntervalInit
  rw [show ((max (roundQ ((1000000 / (rate : ℚ)) / minInterval p)) 1 : ℤ) : ℚ)
        = max ((roundQ ((1000000 / (rate : ℚ)) / minInterval p) : ℤ) : ℚ) 1 by push_cast; rfl,
     max_mul_of_nonneg _ _ hmin.le, one_mul]

/-- C4: for every requested rate R > 0 (with the spec-modelled hardware
constants satisfying: positive gyro rate, at least one sample per
transfer, and a maximum batch capacity that is a multiple of, and at
least, `SAMPLES_PER_TRANSFER`), `ConfigureSampleRate` yields a drain
interval that is an integer multiple of
`SAMPLES_PER_TRANSFER * FIFO_SAMPLE_DT` and at least that minimum, and
gyro/accel samples-per-drain counts that never exceed
`FIFO_MAX_SAMPLES`. -/
theorem configureSampleRate_multiple_and_caps (p : RateParams) (sample_rate : ℕ)
    (hR : 0 < p.gyroRate) (hspt : 1 ≤ p.spt) (hle : p.spt ≤ p.maxSamples)
    (hdvd : p.spt ∣ p.maxSamples) (hrate : 0 < sample_rate) :
    (∃ k : ℤ, 1 ≤ k ∧ (ConfigureSampleRate p sample_rate).1 = (k : ℚ) * minInterval p) ∧
    minInterval p ≤ (ConfigureSampleRate p sample_rate).1 ∧
    (ConfigureSampleRate p sample_rate).2.1 ≤ (p.maxSamples : ℤ) ∧
    (ConfigureSampleRate p sample_rate).2.2 ≤ (p.maxSamples : ℤ) := by
  have hdt : 0 < fifoSampleDT p := div_pos (by norm_num) hR
  have hmin : 0 < minInterval p := minInterval_pos p hR hspt
  have hrne : sample_rate ≠ 0 := hrate.ne'
  have hfst : (ConfigureSampleRate p sample_rate).1
      = ((roundQ (min (fifoEmptyIntervalInit p sample_rate / fifoSampleDT p)
          (p.maxSamples : ℚ))) : ℚ) * fifoSampleDT p := by
    simp only [ConfigureSampleRate, if_neg hrne]
  have hsnd : (ConfigureSampleRate p sample_rate).2.1
      = roundQ (min (fifoEmptyIntervalInit p sample_rate / fifoSampleDT p)
          (p.maxSamples : ℚ)) := by
    simp only [ConfigureSampleRate, if_neg hrne]
  have hthd : (ConfigureSampleRate p sample_rate).2.2
      = roundQ (min ((ConfigureSampleRate p sample_rate).1
            / (1000000 / (p.gyroRate / 2))) (p.maxSamples : ℚ)) := by
    simp only [ConfigureSampleRate, if_neg hrne]
  set r := roundQ ((1000000 / (sample_rate : ℚ)) / minInterval p) with hrdef
  have hi1 := fifoEmptyIntervalInit_eq p sample_rate hmin
  have hdivq : fifoEmptyIntervalInit p sample_rate / fifoSampleDT p
      = ((max r 1 * (p.spt : ℤ) : ℤ) : ℚ) := by
    rw [hi1, ← hrdef]
    unfold minInterval
    push_cast
    field_simp
    ring
  have hminQ : min (((max r 1 * (p.spt : ℤ) : ℤ) : ℚ)) ((p.maxSamples : ℚ))
      = ((min (max r 1 * (p.spt : ℤ)) ((p.maxSamples : ℕ) : ℤ) : ℤ) : ℚ) := by
    push_cast
    rfl
  have hground : roundQ (min (fifoEmptyIntervalInit p sample_rate / fifoSampleDT p)
        (p.maxSamples : ℚ))
      = min (max r 1 * (p.spt : ℤ)) ((p.maxSamples : ℕ) : ℤ) := by
    rw [hdivq, hminQ, roundQ_intCast]
  set g := min (max r 1 * (p.spt : ℤ)) ((p.maxSamples : ℕ) : ℤ) with hgdef
  have hg : (ConfigureSampleRate p sample_rate).2.1 = g := by rw [hsnd, hground]
  have hfst' : (ConfigureSampleRate p sample_rate).1 = (g : ℚ) * fifoSampleDT p := by
    rw [hfst, hground]
  have hsp0 : (0 : ℤ) < (p.spt : ℤ) := by exact_mod_cast hspt
  have hsptg : (p.spt : ℤ) ∣ g := by
    rcases le_total (max r 1 * (p.spt : ℤ)) ((p.maxSamples : ℕ) : ℤ) with h | h
    · rw [hgdef, min_eq_left h]
      exact Dvd.intro_left _ rfl
    · rw [hgdef, min_eq_right h]
      exact_mod_cast hdvd
  have hsple : (p.spt : ℤ) ≤ g := by
    refine le_min ?_ (by exact_mod_cast hle)
    exact le_mul_of_one_le_left hsp0.le (le_max_right r 1)
  have hgM : g ≤ ((p.maxSamples : ℕ) : ℤ) := min_le_right _ _
  obtain ⟨m, hm⟩ := hsptg
  have hm1 : (1 : ℤ) ≤ m := by
    by_contra hcon
    push_neg at hcon
    have hmle : m ≤ 0 := by omega
    have : (p.spt : ℤ) * m ≤ 0 := mul_nonpos_of_nonneg_of_nonpos hsp0.le hmle
    rw [← hm] at this
    linarith
  have hfst'' : (ConfigureSampleRate p sample_rate).1 = (m : ℚ) * minInterval p := by
    rw [hfst', hm]
    unfold minInterval
    push_cast
    ring
  refine ⟨⟨m, hm1, hfst''⟩, ?_, ?_, ?_⟩
  · rw [hfst'']
    exact le_mul_of_one_le_left hmin.le (by exact_mod_cast hm1)
  · rw [hg]
    exact hgM
  · rw [hthd]
    calc roundQ (min ((ConfigureSampleRate p sample_rate).1
          / (1000000 / (p.gyroRate / 2))) (p.maxSamples : ℚ))
        ≤ roundQ ((p.maxSamples : ℚ)) := roundQ_mono (min_le_right _ _)
      _ = (p.maxSamples : ℤ) := by
          rw [show ((p.maxSamples : ℕ) : ℚ) = (((p.maxSamples : ℕ) : ℤ) : ℚ) by push_cast; rfl,
            roundQ_intCast]

/-- Hardware-style parameters: two samples per transfer, 1125 Hz gyro
native rate, a 42-sample maximum batch. -/
def pICM : RateParams := ⟨2, 1125, 42⟩

/-- Witness for C4 at the hardware-style parameters and an 800 Hz rate. -/
theorem configureSampleRate_multiple_and_caps_witness :
    0 < pICM.gyroRate ∧ 1 ≤ pICM.spt ∧ pICM.spt ≤ pICM.maxSamples ∧
    pICM.spt ∣ pICM.maxSamples ∧ 0 < 800 ∧
    ((∃ k : ℤ, 1 ≤ k ∧ (ConfigureSampleRate pICM 800).1 = (k : ℚ) * minInterval pICM) ∧
      minInterval pICM ≤ (ConfigureSampleRate pICM 800).1 ∧
      (ConfigureSampleRate pICM 800).2.1 ≤ (pICM.maxSamples : ℤ) ∧
      (ConfigureSampleRate pICM 800).2.2 ≤ (pICM.maxSamples : ℤ)) :=
  ⟨by norm_num [pICM], by norm_num [pICM], by norm_num [pICM], by decide, by norm_num,
   configureSampleRate_multiple_and_caps pICM 800 (by norm_num [pICM]) (by norm_num [pICM])
     (by norm_num [pICM]) (by decide) (by norm_num)⟩

/-- Formalisation of the claim's words for the interval derivation: round
the requested interval 1e6/rate DOWN to the nearest multiple of the
minimum schedulable interval, floored at the minimum itself. -/
def specRoundDownInterval (p : RateParams) (rate : ℕ) : ℚ :=
  max ((⌊(1000000 / (rate : ℚ)) / minInterval p⌋ : ℚ) * minInterval p) (minInterval p)

/-- Parameters used for the C5 demonstration: two samples per transfer and
a 1000 Hz gyro native rate, so the minimum schedulable interval is
2000 microseconds. -/
def pDemo : RateParams := ⟨2, 1000, 42⟩

/-- Counterexample for C5 as stated: at a requested rate of 300 Hz the
requested interval is 10000/3 microseconds; the code computes an interval
of 4000 microseconds — the multiple of 2000 NEAREST to (and here above)
the request — whereas rounding down as the claim states would give
2000 microseconds. -/
theorem fifoEmptyIntervalInit_not_round_down :
    fifoEmptyIntervalInit pDemo 300 = 4000 ∧
    specRoundDownInterval pDemo 300 = 2000 ∧
    1000000 / (300 : ℚ) < fifoEmptyIntervalInit pDemo 300 := by
  have h1 : minInterval pDemo = 2000 := by norm_num [minInterval, fifoSampleDT, pDemo]
  have hx : (1000000 : ℚ) / ((300 : ℕ) : ℚ) / minInterval pDemo = 5 / 3 := by
    rw [h1]
    norm_num
  have hsum : (5 / 3 + 1 / 2 : ℚ) = 13 / 6 := by norm_num
  have hr : roundQ (5 / 3 : ℚ) = 2 := by
    unfold roundQ
    rw [hsum]
    rw [Int.floor_eq_iff]
    constructor <;> norm_num
  have hf : ⌊(5 / 3 : ℚ)⌋ = 1 := by
    rw [Int.floor_eq_iff]
    constructor <;> norm_num
  have h4 : fifoEmptyIntervalInit pDemo 300 = 4000 := by
    unfold fifoEmptyIntervalInit
    rw [hx, hr, h1]
    norm_num
  refine ⟨h4, ?_, ?_⟩
  · unfold specRoundDownInterval
    rw [hx, hf, h1]
    norm_num
  · rw [h4]
    norm_num

/-- C5 (amended): `ConfigureSampleRate` derives the initial drain interval
by rounding the requested interval 1e6/rate to the NEAREST integer
multiple of the minimum schedulable interval (ties away from zero),
floored at the minimum interval itself — not by rounding down: the result
is a multiple of the minimum, it is within half a minimum interval of the
request whenever the request is at least the minimum, and it equals the
minimum when the request is at most the minimum. -/
theorem fifoEmptyIntervalInit_nearest_multiple (p : RateParams) (rate : ℕ)
    (hR : 0 < p.gyroRate) (hspt : 1 ≤ p.spt) (hrate : 0 < rate) :
    (∃ k : ℤ, 1 ≤ k ∧ fifoEmptyIntervalInit p rate = (k : ℚ) * minInterval p) ∧
    (minInterval p ≤ 1000000 / (rate : ℚ) →
      |fifoEmptyIntervalInit p rate - 1000000 / (rate : ℚ)| ≤ minInterval p / 2) ∧
    (1000000 / (rate : ℚ) ≤ minInterval p →
      fifoEmptyIntervalInit p rate = minInterval p) := by
  have hmin : 0 < minInterval p := minInterval_pos p hR hspt
  set m := minInterval p with hmdef
  set req := 1000000 / (rate : ℚ) with hreqdef
  set x := req / m with hxdef
  set r := roundQ x with hrdef
  have hi1 : fifoEmptyIntervalInit p rate = ((max r 1 : ℤ) : ℚ) * m :=
    fifoEmptyIntervalInit_eq p rate hmin
  have hreq : r = ⌊x + 1 / 2⌋ := hrdef
  have hfl_le : (r : ℚ) ≤ x + 1 / 2 := by
    rw [hreq]
    exact Int.floor_le _
  have hfl_gt : x - 1 / 2 < (r : ℚ) := by
    rw [hreq]
    have h := Int.lt_floor_add_one (x + 1 / 2)
    linarith
  refine ⟨⟨max r 1, le_max_right _ _, hi1⟩, ?_, ?_⟩
  · intro hge
    have hx1 : (1 : ℚ) ≤ x := (one_le_div hmin).mpr hge
    have hr1 : (1 : ℤ) ≤ r := by
      rw [hrdef]
      unfold roundQ
      rw [Int.le_floor]
      push_cast
      linarith
    rw [hi1, max_eq_left hr1]
    have hreqm : x * m = req := div_mul_cancel₀ req hmin.ne'
    have habs : |(r : ℚ) - x| ≤ 1 / 2 := abs_le.mpr ⟨by linarith, by linarith⟩
    calc |(r : ℚ) * m - req| = |(r : ℚ) - x| * m := by
          rw [← hreqm, ← sub_mul, abs_mul, abs_of_pos hmin]
      _ ≤ (1 / 2) * m := mul_le_mul_of_nonneg_right habs hmin.le
      _ = m / 2 := by ring
  · intro hle2
    have hx1 : x ≤ 1 := (div_le_one hmin).mpr hle2
    have hone : roundQ (1 : ℚ) = 1 := by
      rw [show ((1 : ℚ)) = ((1 : ℤ) : ℚ) by norm_num]
      exact roundQ_intCast 1
    have hr1 : r ≤ 1 := by
      have h32 : roundQ x ≤ roundQ 1 := roundQ_mono hx1
      rw [hone] at h32
      exact h32
    rw [hi1, max_eq_right hr1]
    push_cast
    ring

/-- Witness for C5 (amended) at the demonstration parameters and 300 Hz. -/
theorem fifoEmptyIntervalInit_nearest_multiple_witness :
    0 < pDemo.gyroRate ∧ 1 ≤ pDemo.spt ∧ (0 : ℕ) < 300 ∧
    ((∃ k : ℤ, 1 ≤ k ∧ fifoEmptyIntervalInit pDemo 300 = (k : ℚ) * minInterval pDemo) ∧
      (minInterval pDemo ≤ 1000000 / (300 : ℚ) →
        |fifoEmptyIntervalInit pDemo 300 - 1000000 / (300 : ℚ)| ≤ minInterval pDemo / 2) ∧
      (1000000 / (300 : ℚ) ≤ minInterval pDemo →
        fifoEmptyIntervalInit pDemo 300 = minInterval pDemo)) :=
  ⟨by norm_num [pDemo], by norm_num [pDemo], by norm_num,
   fifoEmptyIntervalInit_nearest_multiple pDemo 300 (by norm_num [pDemo])
     (by norm_num [pDemo]) (by norm_num)⟩

/-- Driver state machine states (`enum class STATE`). -/
inductive STATE
  | RESET
  | WAIT_FOR_RESET
  | CONFIGURE
  | FIFO_READ
deriving DecidableEq

/-- Mirrors the `WAIT_FOR_RESET` branch of `ICM20948::RunImpl`:
`whoamiExpected` is the `WHOAMI` constant from the missing header;
`whoamiRead` and `pwrRead` are the two register read-backs; `elapsed_us`
is the time since `_reset_timestamp` in microseconds; 0x41 is the
post-reset value of PWR_MGMT_1. Returns the next state and the delay in
microseconds passed to the re-schedule. -/
def runWaitForReset (whoamiExpected whoamiRead pwrRead : Byte) (elapsed_us : ℕ) :
    STATE × ℕ :=
  if whoamiRead = whoamiExpected ∧ pwrRead = (0x41 : Byte) then
    (STATE.CONFIGURE, 10000)
  else if 100000 < elapsed_us then (STATE.RESET, 100000)
  else (STATE.WAIT_FOR_RESET, 10000)

/-- C7: in WAIT_FOR_RESET, matching identity and power-management
read-backs move the machine to CONFIGURE; otherwise, elapsed time over
100 ms loops back to RESET; otherwise the machine stays in WAIT_FOR_RESET
and re-polls after the short 10 ms delay. -/
theorem runWaitForReset_transitions (we wr pw : Byte) (elapsed_us : ℕ) :
    ((wr = we ∧ pw = (0x41 : Byte)) →
      runWaitForReset we wr pw elapsed_us = (STATE.CONFIGURE, 10000)) ∧
    (¬(wr = we ∧ pw = (0x41 : Byte)) → 100000 < elapsed_us →
      (runWaitForReset we wr pw elapsed_us).1 = STATE.RESET) ∧
    (¬(wr = we ∧ pw = (0x41 : Byte)) → elapsed_us ≤ 100000 →
      runWaitForReset we wr pw elapsed_us = (STATE.WAIT_FOR_RESET, 10000)) := by
  refine ⟨fun h => ?_, fun h h2 => ?_, fun h h2 => ?_⟩
  · simp [runWaitForReset, h]
  · simp [runWaitForReset, h, h2]
  · simp [runWaitForReset, h, show ¬ 100000 < elapsed_us by omega]

/-- Witness for C7: the three branches at concrete read-backs and times
(0xEA standing for the expected identity value). -/
theorem runWaitForReset_transitions_witness :
    runWaitForReset (0xEA : Byte) (0xEA : Byte) (0x41 : Byte) 0
        = (STATE.CONFIGURE, 10000) ∧
      (runWaitForReset (0xEA : Byte) 0 0 200000).1 = STATE.RESET ∧
      runWaitForReset (0xEA : Byte) 0 0 50000 = (STATE.WAIT_FOR_RESET, 10000) :=
  ⟨(runWaitForReset_transitions _ _ _ 0).1 ⟨rfl, rfl⟩,
   (runWaitForReset_transitions _ _ _ 200000).2.1 (by decide) (by decide),
   (runWaitForReset_transitions _ _ _ 50000).2.2 (by decide) (by decide)⟩

/-- Modelled from the spec: the address of the bank-select register
(`REG_BANK_SEL`, declared in the missing header). -/
def REG_BANK_SEL : Byte := 0x7F

/-- Mirrors `ICM20948::SelectRegisterBank`: given the cached
`_last_register_bank` and the requested bank, returns the new cache value
and the bus transactions issued, each a written (register, value) pair. -/
def SelectRegisterBank (last bank : Byte) : Byte × List (Byte × Byte) :=
  if bank ≠ last then (bank, [(REG_BANK_SEL, bank)]) else (last, [])

/-- C8: a bank-select bus transaction is issued only when the requested
bank differs from the cached one; on a cache hit no bus transfer occurs
and the cache is unchanged; after every call the cache equals the
requested bank. -/
theorem selectRegisterBank_cache_and_traffic (last bank : Byte) :
    (SelectRegisterBank last bank).1 = bank ∧
    (bank = last → (SelectRegisterBank last bank).2 = []) ∧
    (bank ≠ last → (SelectRegisterBank last bank).2 = [(REG_BANK_SEL, bank)]) := by
  by_cases h : bank = last
  · subst h
    simp [SelectRegisterBank]
  · simp [SelectRegisterBank, h]

/-- Witness for C8: a cache hit issues nothing; a differing bank issues
exactly one bank-select write and updates the cache. -/
theorem selectRegisterBank_cache_and_traffic_witness :
    (SelectRegisterBank 0 0).2 = [] ∧
      (SelectRegisterBank 0 (0x20 : Byte)).2 = [(REG_BANK_SEL, (0x20 : Byte))] ∧
      (SelectRegisterBank 0 (0x20 : Byte)).1 = (0x20 : Byte) :=
  ⟨(selectRegisterBank_cache_and_traffic 0 0).2.1 rfl,
   (selectRegisterBank_cache_and_traffic 0 (0x20 : Byte)).2.2 (by decide),
   (selectRegisterBank_cache_and_traffic 0 (0x20 : Byte)).1⟩

/-- Mirrors the value computed by `ICM20948::RegisterSetAndClearBits`:
read-modify-write with the guards of the source, where the C `~clearbits`
truncated to the 8-bit register is `255 ^^^ clearbits`. -/
def registerSetAndClearBitsValue (orig setbits clearbits : ℕ) : ℕ :=
  let v1 := if setbits ≠ 0 then orig ||| setbits else orig
  if clearbits ≠ 0 then v1 &&& (255 ^^^ clearbits) else v1

/-- Mirrors the success predicate of `ICM20948::RegisterCheck`: all
`set_bits` actually set and all `clear_bits` actually clear, each mask
only checked when nonzero. -/
def registerCheckSuccess (reg_value setbits clearbits : ℕ) : Bool :=
  (decide (setbits = 0) || decide (reg_value &&& setbits = setbits)) &&
  (decide (clearbits = 0) || decide (reg_value &&& clearbits = 0))

theorem land_mask255_of_lt {a : ℕ} (h : a < 256) : a &&& 255 = a := by
  apply Nat.eq_of_testBit_eq
  intro i
  simp only [Nat.testBit_and]
  rw [show (255 : ℕ) = 2 ^ 8 - 1 by norm_num, Nat.testBit_two_pow_sub_one]
  by_cases hi : i < 8
  · simp [hi]
  · have h2 : a < 2 ^ i := by
      calc a < 256 := h
        _ = 2 ^ 8 := by norm_num
        _ ≤ 2 ^ i := Nat.pow_le_pow_right (by norm_num) (by omega)
    simp [Nat.testBit_lt_two_pow h2]

/-- C9: for a configuration entry whose set-bits and clear-bits do not
overlap, the corrective value written by `RegisterSetAndClearBits` after
`RegisterCheck` detects drift has all set-mask bits set and all
clear-mask bits clear, so re-checking that value succeeds. -/
theorem registerSetAndClearBits_corrects (orig setbits clearbits : ℕ)
    (ho : orig < 256) (hs : setbits < 256) (hc : clearbits < 256)
    (hdisj : setbits &&& clearbits = 0) :
    registerSetAndClearBitsValue orig setbits clearbits &&& setbits = setbits ∧
    registerSetAndClearBitsValue orig setbits clearbits &&& clearbits = 0 ∧
    registerCheckSuccess (registerSetAndClearBitsValue orig setbits clearbits)
      setbits clearbits = true := by
  have hval : registerSetAndClearBitsValue orig setbits clearbits
      = (orig ||| setbits) &&& (255 ^^^ clearbits) := by
    unfold registerSetAndClearBitsValue
    have h8 : (256 : ℕ) = 2 ^ 8 := by norm_num
    have hor : orig ||| setbits < 256 := by
      rw [h8]
      exact Nat.or_lt_two_pow (h8 ▸ ho) (h8 ▸ hs)
    by_cases h1 : setbits = 0 <;> by_cases h2 : clearbits = 0 <;>
      simp only [h1, h2, if_neg, if_pos, ne_eq, not_true_eq_false, not_false_eq_true,
        ite_true, ite_false, Nat.or_zero, Nat.xor_zero]
    · exact (land_mask255_of_lt ho).symm
    · exact (land_mask255_of_lt hor).symm
  have hbits_set : ((orig ||| setbits) &&& (255 ^^^ clearbits)) &&& setbits = setbits := by
    apply Nat.eq_of_testBit_eq
    intro i
    have hd := congrArg (fun n => Nat.testBit n i) hdisj
    simp only [Nat.testBit_and, Nat.zero_testBit] at hd
    simp only [Nat.testBit_and, Nat.testBit_or, Nat.testBit_xor]
    rw [show (255 : ℕ) = 2 ^ 8 - 1 by norm_num, Nat.testBit_two_pow_sub_one]
    by_cases hi : i < 8
    · cases hsb : setbits.testBit i
      · simp
      · have hcb : clearbits.testBit i = false := by
          cases hcb : clearbits.testBit i
          · rfl
          · rw [hsb, hcb] at hd
            simp at hd
        simp [hsb, hcb, hi]
    · have h2 : setbits < 2 ^ i := by
        calc setbits < 256 := hs
          _ = 2 ^ 8 := by norm_num
          _ ≤ 2 ^ i := Nat.pow_le_pow_right (by norm_num) (by omega)
      simp [Nat.testBit_lt_two_pow h2]
  have hbits_clear : ((orig ||| setbits) &&& (255 ^^^ clearbits)) &&& clearbits = 0 := by
    apply Nat.eq_of_testBit_eq
    intro i
    simp only [Nat.testBit_and, Nat.testBit_or, Nat.testBit_xor, Nat.zero_testBit]
    rw [show (255 : ℕ) = 2 ^ 8 - 1 by norm_num, Nat.testBit_two_pow_sub_one]
    by_cases hi : i < 8
    · cases hcb : clearbits.testBit i
      · simp
      · simp [hcb, hi]
    · have h2 : clearbits < 2 ^ i := by
        calc clearbits < 256 := hc
          _ = 2 ^ 8 := by norm_num
          _ ≤ 2 ^ i := Nat.pow_le_pow_right (by norm_num) (by omega)
      simp [Nat.testBit_lt_two_pow h2]
  refine ⟨by rw [hval]; exact hbits_set, by rw [hval]; exact hbits_clear, ?_⟩
  simp [registerCheckSuccess, hval, hbits_set, hbits_clear]

/-- Witness for C9 at a concrete drifted register value and disjoint masks. -/
theorem registerSetAndClearBits_corrects_witness :
    178 < 256 ∧ 5 < 256 ∧ 18 < 256 ∧ 5 &&& 18 = 0 ∧
    (registerSetAndClearBitsValue 178 5 18 &&& 5 = 5 ∧
      registerSetAndClearBitsValue 178 5 18 &&& 18 = 0 ∧
      registerCheckSuccess (registerSetAndClearBitsValue 178 5 18) 5 18 = true) :=
  ⟨by decide, by decide, by decide, by decide,
   registerSetAndClearBits_corrects 178 5 18 (by decide) (by decide) (by decide) (by decide)⟩

/-- State of the three cross-context ready-signal cells written by the
data-ready interrupt handler (`_data_ready_count`,
`_fifo_watermark_interrupt_timestamp`, `_fifo_read_samples`). -/
structure ReadySignal where
  data_ready_count : ℕ
  fifo_watermark_interrupt_timestamp : ℕ
  fifo_read_samples : ℕ
deriving DecidableEq

/-- Register-bit pulse operations issued by `FIFOReset` on the FIFO_RST
register (the concrete register address and bit value live in the missing
header; only the set-then-clear pulse shape is modelled). -/
inductive FifoRstOp
  | setResetBit
  | clearResetBit
deriving DecidableEq

/-- Mirrors `ICM20948::FIFOReset`: pulse the FIFO reset bit (set then
clear) and store zero to all three ready-signal cells. -/
def FIFOReset (s : ReadySignal) : ReadySignal × List FifoRstOp :=
  (⟨0, 0, 0⟩, [FifoRstOp.setResetBit, FifoRstOp.clearResetBit])

/-- C10: every `FIFOReset` call pulses the FIFO reset register bit and
stores zero to the atomic data-ready edge counter, the watermark
interrupt timestamp, and the atomic ready-sample count, regardless of
their previous values. -/
theorem fifoReset_clears_ready_signal (s : ReadySignal) :
    (FIFOReset s).1.data_ready_count = 0 ∧
    (FIFOReset s).1.fifo_watermark_interrupt_timestamp = 0 ∧
    (FIFOReset s).1.fifo_read_samples = 0 ∧
    (FIFOReset s).2 = [FifoRstOp.setResetBit, FifoRstOp.clearResetBit] :=
  ⟨rfl, rfl, rfl, rfl⟩

end ICM20948
